import Mathlib

/-!
Shallow embedding of the settings definition and validation engine of the
configurable-machine repository: the data model (setting definitions,
proposed values, validation errors), the unit-of-measure conversion
subroutine `convertUom`, the validator `verifySettings`, and the
`InjectionMolder` machine with its `applySettings` operation.

Numbers are modelled as rationals; JS `undefined` becomes `Option.none`;
iteration-ordered JS `Map`/`Set` objects become association lists built in
insertion order.
-/

namespace ConfigEngine

/-- The closed enumeration of units of measure shipped with the engine. -/
inductive UnitOfMeasure where
  | DEGREE_CELSIUS
  | DEGREE_FAHRENHEIT
  | BAR
  | PSI
  | RPM
  | RPS
  | SECOND
  | MINUTE
deriving DecidableEq, Repr

/-- The three data types a setting can have. -/
inductive SettingType where
  | STRING
  | NUMBER
  | BOOLEAN
deriving DecidableEq, Repr

/-- A primitive JS value carried by a proposal or a default: string, number
or boolean. -/
inductive SettingPrimitive where
  | str (s : String)
  | num (q : ℚ)
  | bool (b : Bool)
deriving DecidableEq, Repr

/-- The kind-specific part of a setting definition.  It mirrors the TS
union `NumericSetting | StringSetting | BooleanSetting`: the default value
is typed to the setting's data type, and `uom`, `minValue`, `maxValue`
exist only on numeric settings (`uom?: never` on the others). -/
inductive SettingKind where
  | stringK (defaultValue : Option String)
  | booleanK (defaultValue : Option Bool)
  | numberK (defaultValue : Option ℚ) (uom : Option UnitOfMeasure)
      (minValue : Option ℚ) (maxValue : Option ℚ)
deriving DecidableEq, Repr

/-- A setting definition (`SettingBase` plus the kind-specific fields). -/
structure Setting where
  nspace : Option String
  identifier : String
  description : String
  nullable : Option Bool
  kind : SettingKind
deriving DecidableEq, Repr

/-- The `type` discriminant of a definition. -/
def Setting.type (d : Setting) : SettingType :=
  match d.kind with
  | .stringK _ => SettingType.STRING
  | .booleanK _ => SettingType.BOOLEAN
  | .numberK _ _ _ _ => SettingType.NUMBER

/-- The definition's default value, viewed as an untyped primitive (the
source reads `defaultValue` through a cast across the three variants). -/
def Setting.defaultValue (d : Setting) : Option SettingPrimitive :=
  match d.kind with
  | .stringK dv => dv.map SettingPrimitive.str
  | .booleanK dv => dv.map SettingPrimitive.bool
  | .numberK dv _ _ _ => dv.map SettingPrimitive.num

/-- The definition's unit of measure (`none` on non-numeric settings). -/
def Setting.uom (d : Setting) : Option UnitOfMeasure :=
  match d.kind with
  | .numberK _ u _ _ => u
  | _ => none

/-- The definition's inclusive lower bound (`none` on non-numeric). -/
def Setting.minValue (d : Setting) : Option ℚ :=
  match d.kind with
  | .numberK _ _ mn _ => mn
  | _ => none

/-- The definition's inclusive upper bound (`none` on non-numeric). -/
def Setting.maxValue (d : Setting) : Option ℚ :=
  match d.kind with
  | .numberK _ _ _ mx => mx
  | _ => none

/-- A proposed value, one entry of a validation request. -/
structure SettingValue where
  identifier : String
  value : Option SettingPrimitive
  uom : Option UnitOfMeasure
deriving DecidableEq, Repr

/-- A validation error. -/
structure SettingError where
  identifier : String
  message : String
deriving DecidableEq, Repr

/-- `convertUom` of `ConfigurableMachine`: converts `value` from unit
`fromUom` to unit `toUom`, or returns `none` for pairs outside the fixed
conversion table.  (`from` is a Lean keyword, so the parameters are named
as in the sibling variant of the source.) -/
def convertUom (value : ℚ) (fromUom toUom : UnitOfMeasure) : Option ℚ :=
  if fromUom = toUom then
    some value
  else if fromUom = .DEGREE_CELSIUS ∧ toUom = .DEGREE_FAHRENHEIT then
    some (value * 9 / 5 + 32)
  else if fromUom = .DEGREE_FAHRENHEIT ∧ toUom = .DEGREE_CELSIUS then
    some ((value - 32) * 5 / 9)
  else if fromUom = .BAR ∧ toUom = .PSI then
    some (value * (145037738007218 / 10000000000000 : ℚ))
  else if fromUom = .PSI ∧ toUom = .BAR then
    some (value / (145037738007218 / 10000000000000 : ℚ))
  else if fromUom = .RPM ∧ toUom = .RPS then
    some (value / 60)
  else if fromUom = .RPS ∧ toUom = .RPM then
    some (value * 60)
  else if fromUom = .SECOND ∧ toUom = .MINUTE then
    some (value / 60)
  else if fromUom = .MINUTE ∧ toUom = .SECOND then
    some (value * 60)
  else
    none

/-- The 8 ordered pairs of distinct units listed in the conversion table. -/
def inConvTable (fromUom toUom : UnitOfMeasure) : Bool :=
  match fromUom, toUom with
  | .DEGREE_CELSIUS, .DEGREE_FAHRENHEIT => true
  | .DEGREE_FAHRENHEIT, .DEGREE_CELSIUS => true
  | .BAR, .PSI => true
  | .PSI, .BAR => true
  | .RPM, .RPS => true
  | .RPS, .RPM => true
  | .SECOND, .MINUTE => true
  | .MINUTE, .SECOND => true
  | _, _ => false

/-- Modelled from the spec: the convertibility classes of section 3
(temperature, pressure, rotation rate, duration), used only to state the
closed-world conversion property. -/
inductive UomClass where
  | temperature
  | pressure
  | rotationRate
  | duration
deriving DecidableEq, Repr

/-- Modelled from the spec: the class of each unit. -/
def uomClass : UnitOfMeasure → UomClass
  | .DEGREE_CELSIUS => .temperature
  | .DEGREE_FAHRENHEIT => .temperature
  | .BAR => .pressure
  | .PSI => .pressure
  | .RPM => .rotationRate
  | .RPS => .rotationRate
  | .SECOND => .duration
  | .MINUTE => .duration

/-- One step of building the definition map: JS `Map.set` keeps the key's
original insertion position but replaces the value when the key exists,
otherwise appends the new entry. -/
def mapSet (m : List (String × Setting)) (d : Setting) : List (String × Setting) :=
  if m.any (fun e => e.1 == d.identifier) then
    m.map (fun e => if e.1 == d.identifier then (e.1, d) else e)
  else
    m ++ [(d.identifier, d)]

/-- The definition map built from the machine's settings, in insertion
order (`definitionMap` in the source). -/
def buildDefMap (defs : List Setting) : List (String × Setting) :=
  defs.foldl mapSet []

/-- The first loop over proposals: the insertion-ordered set of
identifiers occurring more than once (`duplicateProvided` in the source),
accumulated over the already `seen` identifiers and already found `dups`. -/
def scanDups (seen dups : List String) : List SettingValue → List String
  | [] => dups
  | p :: rest =>
    if seen.contains p.identifier then
      scanDups seen
        (if dups.contains p.identifier then dups else dups ++ [p.identifier]) rest
    else
      scanDups (seen ++ [p.identifier]) dups rest

/-- The errors pushed by the second loop over proposals: one
"Unknown setting identifier" error per proposal occurrence whose
identifier is absent from the definition map.  (In the source the same
loop also fills `providedMap`; the two effects are independent, so they
are embedded as two functions over the same traversal.) -/
def unknownErrors (defMap : List (String × Setting)) (props : List SettingValue) :
    List SettingError :=
  props.filterMap (fun p =>
    if defMap.any (fun e => e.1 == p.identifier) then none
    else some ⟨p.identifier, "Unknown setting identifier"⟩)

/-- The other effect of the second loop: `providedMap`, keeping the first
occurrence of each identifier that exists in the definition map. -/
def buildProvidedMap (defMap : List (String × Setting))
    (acc : List (String × SettingValue)) :
    List SettingValue → List (String × SettingValue)
  | [] => acc
  | p :: rest =>
    if defMap.any (fun e => e.1 == p.identifier) then
      if acc.any (fun e => e.1 == p.identifier) then
        buildProvidedMap defMap acc rest
      else
        buildProvidedMap defMap (acc ++ [(p.identifier, p)]) rest
    else
      buildProvidedMap defMap acc rest

/-- The range checks at the end of the NUMBER branch: compare
`valueForRange` against the optional inclusive bounds. -/
def rangeErrors (identifier : String) (minValue maxValue : Option ℚ)
    (valueForRange : ℚ) : List SettingError :=
  (match minValue with
   | some mn =>
     if valueForRange < mn then
       [⟨identifier, "Value must be >= " ++ toString mn⟩]
     else []
   | none => []) ++
  (match maxValue with
   | some mx =>
     if valueForRange > mx then
       [⟨identifier, "Value must be <= " ++ toString mx⟩]
     else []
   | none => [])

/-- The body of the per-definition loop of `verifySettings` (source lines
46-130) for one entry `(identifier, d)` of the definition map, given the
`providedMap` built from the proposals. -/
def checkDef (providedMap : List (String × SettingValue)) (identifier : String)
    (d : Setting) : List SettingError :=
  let provided : Option SettingValue :=
    (providedMap.find? (fun e => e.1 == identifier)).map (fun e => e.2)
  let nullable : Bool := d.nullable == some true
  let providedValue : Option SettingPrimitive := provided.bind (fun p => p.value)
  let hasProvidedValue : Bool := providedValue.isSome
  let hasDefaultValue : Bool := d.defaultValue.isSome
  let providedUom : Option UnitOfMeasure := provided.bind (fun p => p.uom)
  if ¬nullable ∧ ¬hasProvidedValue ∧ ¬hasDefaultValue then
    [⟨identifier, "Missing value (no default and not nullable)"⟩]
  else
    match (if hasProvidedValue then providedValue else d.defaultValue) with
    | none =>
      -- Nullable without value is fine.
      if d.type ≠ SettingType.NUMBER ∧ providedUom.isSome then
        [⟨identifier, "Unit of measure is only allowed for numeric settings"⟩]
      else []
    | some effectiveValue =>
      (if d.type ≠ SettingType.NUMBER ∧ providedUom.isSome then
        [⟨identifier, "Unit of measure is only allowed for numeric settings"⟩]
       else []) ++
      (match d.kind with
       | .stringK _ =>
         match effectiveValue with
         | .str _ => []
         | _ => [⟨identifier, "Value must be a string"⟩]
       | .booleanK _ =>
         match effectiveValue with
         | .bool _ => []
         | _ => [⟨identifier, "Value must be a boolean"⟩]
       | .numberK _ settingUom minValue maxValue =>
         match effectiveValue with
         | .num x =>
           if providedUom.isSome ∧ settingUom.isNone then
             [⟨identifier, "Unit of measure is not supported for this setting"⟩]
           else
             match
               (match settingUom, providedUom with
                | some su, some pu =>
                  if pu ≠ su then convertUom x pu su else some x
                | _, _ => some x) with
             | none =>
               [⟨identifier, "Unit of measure is not convertible to required unit"⟩]
             | some valueForRange =>
               rangeErrors identifier minValue maxValue valueForRange
         | _ => [⟨identifier, "Value must be a number"⟩])

/-- `verifySettings` of `ConfigurableMachine`: validates the proposed
`settings` against the machine's definitions `machineSettings`, returning
the duplicate errors, then the unknown-identifier errors, then the
per-definition errors, in the push order of the source. -/
def verifySettings (machineSettings : List Setting) (settings : List SettingValue) :
    List SettingError :=
  let definitionMap := buildDefMap machineSettings
  let providedMap := buildProvidedMap definitionMap [] settings
  ((scanDups [] [] settings).map
    (fun id => ⟨id, "Duplicate setting identifier provided"⟩)) ++
  unknownErrors definitionMap settings ++
  definitionMap.flatMap (fun e => checkDef providedMap e.1 e.2)

/-- Boot-time configuration of the injection molder. -/
structure InjectionMolderConfig where
  filePath : String
deriving DecidableEq, Repr

/-- The setting definitions declared by `InjectionMolder.settings`. -/
def injectionMolderSettings : List Setting :=
  [⟨some "material", "materialName",
    "Material name / resin grade used for the current job.", none,
    .stringK (some "PP")⟩,
   ⟨some "safety", "guardsClosedRequired",
    "Require safety guards to be closed before cycle start.", none,
    .booleanK none⟩,
   ⟨some "process", "barrelTemperature",
    "Barrel (melt) temperature setpoint.", none,
    .numberK (some 230) (some .DEGREE_CELSIUS) none none⟩,
   ⟨some "process", "moldTemperature",
    "Mold temperature setpoint.", none,
    .numberK (some 60) (some .DEGREE_CELSIUS) none none⟩,
   ⟨some "process", "injectionPressure",
    "Peak injection pressure limit.", none,
    .numberK (some 1200) (some .BAR) none none⟩,
   ⟨some "process", "screwSpeed",
    "Screw rotation speed during plasticizing.", none,
    .numberK (some 80) (some .RPM) none none⟩,
   ⟨some "process", "coolingTime",
    "Cooling time before mold opening, no cooling if set to null.",
    some true,
    .numberK none (some .SECOND) none none⟩]

/-- `InjectionMolder.applySettings`: verify against the machine's own
definitions; on errors return them with no side effect, otherwise persist
the accepted proposals to the configured file path (the write effect is
modelled as the optional pair of path and serialized content) and return
no errors. -/
def applySettings (config : InjectionMolderConfig) (settings : List SettingValue) :
    List SettingError × Option (String × List SettingValue) :=
  let errors := verifySettings injectionMolderSettings settings
  if errors.length > 0 then
    (errors, none)
  else
    ([], some (config.filePath, settings))

/-- A numeric definition's default value, when present, passes the range
checks of the validator (no bound, or within the inclusive bounds). -/
def defaultWithinBounds (d : Setting) : Bool :=
  match d.kind with
  | .numberK (some dv) _ mn mx => (rangeErrors d.identifier mn mx dv).isEmpty
  | _ => true

/-! ## Helper lemmas about the map- and set-building loops -/

/-- Every entry of the definition map pairs the identifier of one of the
machine's definitions with that definition. -/
theorem mem_foldl_mapSet (defs : List Setting)
    (acc : List (String × Setting)) (e : String × Setting)
    (h : e ∈ defs.foldl mapSet acc) :
    e ∈ acc ∨ (e.2 ∈ defs ∧ e.1 = e.2.identifier) := by
  induction defs generalizing acc with
  | nil => exact Or.inl h
  | cons d rest ih =>
    rcases ih (mapSet acc d) h with h2 | h2
    · unfold mapSet at h2
      split at h2
      · rcases List.mem_map.mp h2 with ⟨x, hx, hxe⟩
        split at hxe
        · rename_i hkey
          refine Or.inr ⟨?_, ?_⟩
          · rw [← hxe]; exact List.mem_cons_self d rest
          · rw [← hxe]
            simpa using (beq_iff_eq.mp hkey)
        · exact Or.inl (hxe ▸ hx)
      · rcases List.mem_append.mp h2 with h3 | h3
        · exact Or.inl h3
        · refine Or.inr ⟨?_, ?_⟩
          · simp only [List.mem_singleton] at h3
            rw [h3]; exact List.mem_cons_self d rest
          · simp only [List.mem_singleton] at h3
            rw [h3]
    · exact Or.inr ⟨List.mem_cons_of_mem d h2.1, h2.2⟩

/-- The keys present in the accumulated definition map are the keys of the
accumulator together with the identifiers of the remaining definitions. -/
theorem any_foldl_mapSet (defs : List Setting) (acc : List (String × Setting))
    (id : String) :
    (defs.foldl mapSet acc).any (fun e => e.1 == id) = true ↔
      (acc.any (fun e => e.1 == id) = true ∨ id ∈ defs.map Setting.identifier) := by
  induction defs generalizing acc with
  | nil => simp
  | cons d rest ih =>
    rw [List.foldl_cons, ih]
    have hpt : ∀ x : String × Setting,
        ((if x.1 == d.identifier then (x.1, d) else x).1 == id) = (x.1 == id) := by
      intro x
      split <;> rfl
    by_cases hid : d.identifier = id
    · subst hid
      have hhas : (mapSet acc d).any (fun e => e.1 == d.identifier) = true := by
        unfold mapSet
        split
        · rename_i hin
          rw [List.any_map]
          rw [List.any_eq_true] at hin ⊢
          rcases hin with ⟨x, hx, hxk⟩
          refine ⟨x, hx, ?_⟩
          rw [Function.comp_apply, hpt x]
          exact hxk
        · simp
      simp [hhas]
    · have hkeys : ((mapSet acc d).any (fun e => e.1 == id) = true) ↔
          (acc.any (fun e => e.1 == id) = true) := by
        unfold mapSet
        split
        · rw [List.any_map]
          rw [List.any_eq_true, List.any_eq_true]
          constructor
          · rintro ⟨x, hx, hxk⟩
            refine ⟨x, hx, ?_⟩
            rw [Function.comp_apply, hpt x] at hxk
            exact hxk
          · rintro ⟨x, hx, hxk⟩
            refine ⟨x, hx, ?_⟩
            rw [Function.comp_apply, hpt x]
            exact hxk
        · rw [List.any_append]
          simp [hid]
      rw [hkeys]
      simp [hid, Ne.symm hid]

/-- With pairwise distinct identifiers the definition map is literally the
list of definitions keyed by their identifiers. -/
theorem buildDefMap_eq_of_nodup (defs : List Setting)
    (hnd : (defs.map Setting.identifier).Nodup) :
    buildDefMap defs = defs.map (fun d => (d.identifier, d)) := by
  unfold buildDefMap
  suffices h : ∀ acc : List (String × Setting),
      (∀ e ∈ acc, e.1 ∉ defs.map Setting.identifier) →
      defs.foldl mapSet acc = acc ++ defs.map (fun d => (d.identifier, d)) by
    simpa using h [] (by simp)
  induction defs with
  | nil => simp
  | cons d rest ih =>
    intro acc hacc
    rw [List.foldl_cons]
    have hstep : mapSet acc d = acc ++ [(d.identifier, d)] := by
      unfold mapSet
      rw [if_neg]
      simp only [List.any_eq_true, not_exists, not_and]
      intro e he
      have := hacc e he
      simp only [List.map_cons, List.mem_cons] at this
      intro hbeq
      exact this (Or.inl (beq_iff_eq.mp hbeq))
    rw [hstep]
    simp only [List.map_cons, List.nodup_cons] at hnd
    rw [ih hnd.2 (acc ++ [(d.identifier, d)]) ?_]
    · simp
    · intro e he
      rcases List.mem_append.mp he with h1 | h1
      · have := hacc e h1
        simp only [List.map_cons, List.mem_cons] at this
        intro hmem
        exact this (Or.inr hmem)
      · simp only [List.mem_singleton] at h1
        rw [h1]
        exact hnd.1

/-- The duplicate scan returns a list without repetitions whenever the
accumulator has none. -/
theorem scanDups_nodup (props : List SettingValue) (seen dups : List String)
    (h : dups.Nodup) : (scanDups seen dups props).Nodup := by
  induction props generalizing seen dups with
  | nil => simpa [scanDups]
  | cons p rest ih =>
    unfold scanDups
    split
    · apply ih
      split
      · exact h
      · rename_i hnotin
        rw [List.nodup_append]
        refine ⟨h, List.nodup_singleton _, ?_⟩
        intro a ha hb
        simp only [List.mem_singleton] at hb
        subst hb
        exact hnotin (List.elem_iff.mpr ha)
    · exact ih _ _ h

/-- Membership in the duplicate scan: an identifier ends up among the
duplicates exactly when it was already a duplicate, or was already seen
and occurs again, or occurs at least twice in the remaining proposals. -/
theorem mem_scanDups (props : List SettingValue) (seen dups : List String)
    (id : String) :
    id ∈ scanDups seen dups props ↔
      id ∈ dups ∨ (id ∈ seen ∧ id ∈ props.map (fun p => p.identifier)) ∨
        2 ≤ (props.map (fun p => p.identifier)).count id := by
  induction props generalizing seen dups with
  | nil => simp [scanDups]
  | cons p rest ih =>
    unfold scanDups
    by_cases hs : seen.contains p.identifier = true
    · rw [if_pos hs]
      have hs2 : p.identifier ∈ seen := List.elem_iff.mp hs
      by_cases hd : dups.contains p.identifier = true
      · rw [if_pos hd, ih]
        have hd2 : p.identifier ∈ dups := List.elem_iff.mp hd
        by_cases hpid : p.identifier = id
        · subst hpid
          simp [hd2]
        · simp [List.count_cons, hpid, Ne.symm hpid]
      · rw [if_neg hd, ih]
        by_cases hpid : p.identifier = id
        · subst hpid
          simp [hs2]
        · simp [List.count_cons, hpid, Ne.symm hpid]
    · rw [if_neg hs, ih]
      have hs2 : p.identifier ∉ seen := fun hm => hs (List.elem_iff.mpr hm)
      by_cases hpid : p.identifier = id
      · subst hpid
        simp only [List.map_cons, List.mem_cons, List.mem_append,
          List.mem_singleton, List.count_cons, beq_self_eq_true, if_pos,
          beq_iff_eq]
        constructor
        · rintro (h1 | ⟨h1, h2⟩ | h1)
          · exact Or.inl h1
          · rcases h1 with h3 | h3
            · exact absurd h3 hs2
            · right; right
              have : 0 < (rest.map (fun p => p.identifier)).count p.identifier :=
                List.count_pos_iff.mpr h2
              omega
          · right; right; omega
        · rintro (h1 | ⟨h1, _⟩ | h1)
          · exact Or.inl h1
          · exact absurd h1 hs2
          · by_cases hrest :
                p.identifier ∈ rest.map (fun p => p.identifier)
            · right; left
              exact ⟨Or.inr (by simp), hrest⟩
            · have h0 :
                  (rest.map (fun p => p.identifier)).count p.identifier = 0 :=
                List.count_eq_zero.mpr hrest
              omega
      · simp [List.count_cons, hpid, Ne.symm hpid]

/-- `find?` over an append when the first part has no hit. -/
theorem find?_append_of_none {α} (l1 l2 : List α) (p : α → Bool)
    (h : l1.find? p = none) : (l1 ++ l2).find? p = l2.find? p := by
  induction l1 with
  | nil => simp
  | cons a rest ih =>
    by_cases hpa : p a = true
    · rw [List.find?_cons_of_pos _ hpa] at h
      cases h
    · rw [List.find?_cons_of_neg _ hpa] at h
      rw [List.cons_append, List.find?_cons_of_neg _ hpa]
      exact ih h

/-- `find?` over an append when the first part already has a hit. -/
theorem find?_append_of_some {α} (l1 l2 : List α) (p : α → Bool) (a : α)
    (h : l1.find? p = some a) : (l1 ++ l2).find? p = some a := by
  induction l1 with
  | nil => cases h
  | cons b rest ih =>
    by_cases hpb : p b = true
    · rw [List.find?_cons_of_pos _ hpb] at h
      rw [List.cons_append, List.find?_cons_of_pos _ hpb]
      exact h
    · rw [List.find?_cons_of_neg _ hpb] at h
      rw [List.cons_append, List.find?_cons_of_neg _ hpb]
      exact ih h

/-- Every unknown-identifier error carries the fixed message and an
identifier occurring among the proposals. -/
theorem mem_unknownErrors (defMap : List (String × Setting))
    (props : List SettingValue) (e : SettingError)
    (he : e ∈ unknownErrors defMap props) :
    e.message = "Unknown setting identifier" ∧
      e.identifier ∈ props.map (fun p => p.identifier) := by
  rcases List.mem_filterMap.mp he with ⟨p, hp, hpe⟩
  split at hpe
  · cases hpe
  · injection hpe with hpe
    rw [← hpe]
    exact ⟨rfl, List.mem_map.mpr ⟨p, hp, rfl⟩⟩

/-- A proposal with an identifier absent from the definition map produces
its unknown-identifier error. -/
theorem unknown_mem_unknownErrors (defMap : List (String × Setting))
    (props : List SettingValue) (p : SettingValue) (hp : p ∈ props)
    (h : defMap.any (fun e => e.1 == p.identifier) = false) :
    (⟨p.identifier, "Unknown setting identifier"⟩ : SettingError) ∈
      unknownErrors defMap props := by
  refine List.mem_filterMap.mpr ⟨p, hp, ?_⟩
  rw [if_neg]
  rw [h]
  simp

/-- Counting the unknown-identifier errors of one absent identifier: one
error per proposal occurrence. -/
theorem count_unknownErrors (defMap : List (String × Setting))
    (props : List SettingValue) (id : String)
    (h : defMap.any (fun e => e.1 == id) = false) :
    (unknownErrors defMap props).count ⟨id, "Unknown setting identifier"⟩ =
      (props.map (fun p => p.identifier)).count id := by
  induction props with
  | nil => rfl
  | cons p rest ih =>
    unfold unknownErrors at ih ⊢
    by_cases hk : (defMap.any fun e => e.1 == p.identifier) = true
    · have hne : p.identifier ≠ id := by
        intro hpe
        rw [hpe, h] at hk
        cases hk
      rw [List.filterMap_cons, if_pos hk, List.map_cons, List.count_cons, ih]
      simp [hne]
    · rw [List.filterMap_cons, if_neg hk, List.count_cons, List.map_cons,
        List.count_cons, ih]
      by_cases hpe : p.identifier = id
      · simp [hpe]
      · simp [hpe, SettingError.mk.injEq]

/-- Every entry of `providedMap` is keyed by the identifier of one of the
proposals. -/
theorem mem_buildProvidedMap (defMap : List (String × Setting))
    (props : List SettingValue) (acc : List (String × SettingValue))
    (e : String × SettingValue)
    (he : e ∈ buildProvidedMap defMap acc props) :
    e ∈ acc ∨ e.1 ∈ props.map (fun p => p.identifier) := by
  induction props generalizing acc with
  | nil => exact Or.inl he
  | cons p rest ih =>
    unfold buildProvidedMap at he
    split at he
    · split at he
      · rcases ih _ he with h1 | h1
        · exact Or.inl h1
        · right
          exact List.mem_cons_of_mem _ h1
      · rcases ih _ he with h1 | h1
        · rcases List.mem_append.mp h1 with h2 | h2
          · exact Or.inl h2
          · right
            simp only [List.mem_singleton] at h2
            rw [h2]
            simp
        · right
          exact List.mem_cons_of_mem _ h1
    · rcases ih _ he with h1 | h1
      · exact Or.inl h1
      · right
        exact List.mem_cons_of_mem _ h1

/-- An identifier absent from the proposals has no entry in
`providedMap`. -/
theorem find?_buildProvidedMap_none (defMap : List (String × Setting))
    (props : List SettingValue) (id : String)
    (h : id ∉ props.map (fun p => p.identifier)) :
    (buildProvidedMap defMap [] props).find? (fun e => e.1 == id) = none := by
  rw [List.find?_eq_none]
  intro e he hbeq
  rcases mem_buildProvidedMap defMap props [] e he with h1 | h1
  · cases h1
  · rw [beq_iff_eq.mp hbeq] at h1
    exact h h1

/-- Once `providedMap` holds an entry for a key, later proposals never
replace it. -/
theorem find?_buildProvidedMap_of_some (defMap : List (String × Setting))
    (props : List SettingValue) (acc : List (String × SettingValue))
    (id : String) (e : String × SettingValue)
    (h : acc.find? (fun x => x.1 == id) = some e) :
    (buildProvidedMap defMap acc props).find? (fun x => x.1 == id) = some e := by
  induction props generalizing acc with
  | nil => exact h
  | cons p rest ih =>
    unfold buildProvidedMap
    split
    · split
      · exact ih _ h
      · exact ih _ (find?_append_of_some _ _ _ _ h)
    · exact ih _ h

/-- For a known identifier, `providedMap` keeps the first proposal that
carries it. -/
theorem find?_buildProvidedMap_first (defMap : List (String × Setting))
    (props : List SettingValue) (acc : List (String × SettingValue))
    (id : String) (p : SettingValue)
    (hdef : defMap.any (fun e => e.1 == id) = true)
    (hacc : acc.find? (fun x => x.1 == id) = none)
    (hfirst : props.find? (fun q => q.identifier == id) = some p) :
    (buildProvidedMap defMap acc props).find? (fun x => x.1 == id) =
      some (id, p) := by
  induction props generalizing acc with
  | nil => cases hfirst
  | cons q rest ih =>
    by_cases hq : q.identifier = id
    · rw [List.find?_cons_of_pos _ (by simp [hq])] at hfirst
      injection hfirst with hfirst
      subst hfirst
      unfold buildProvidedMap
      rw [if_pos (by rw [hq]; exact hdef)]
      rw [if_neg (by
        intro hany
        rcases List.any_eq_true.mp hany with ⟨x, hx, hxk⟩
        have hnone := List.find?_eq_none.mp hacc x hx
        rw [hq] at hxk
        exact hnone hxk)]
      apply find?_buildProvidedMap_of_some
      rw [find?_append_of_none _ _ _ hacc]
      rw [List.find?_cons_of_pos _ (by simp [hq])]
      rw [hq]
    · rw [List.find?_cons_of_neg _ (by simp [hq])] at hfirst
      unfold buildProvidedMap
      split
      · split
        · exact ih _ hacc hfirst
        · apply ih _ ?_ hfirst
          rw [find?_append_of_none _ _ _ hacc]
          rw [List.find?_cons_of_neg _ (by simp [hq])]
          rfl
      · exact ih _ hacc hfirst

/-- Counting mapped duplicate errors reduces to counting identifiers. -/
theorem count_map_mk (ids : List String) (id msg : String) :
    ((ids.map (fun i => (⟨i, msg⟩ : SettingError))).count ⟨id, msg⟩) =
      ids.count id := by
  induction ids with
  | nil => rfl
  | cons a rest ih =>
    rw [List.map_cons, List.count_cons, List.count_cons, ih]
    by_cases ha : a = id
    · simp [ha]
    · simp [ha, SettingError.mk.injEq]

/-- The shapes a message produced by the per-definition checks can take. -/
def checkMsgOk (m : String) : Prop :=
  m = "Missing value (no default and not nullable)" ∨
  m = "Unit of measure is only allowed for numeric settings" ∨
  m = "Value must be a string" ∨
  m = "Value must be a boolean" ∨
  m = "Value must be a number" ∨
  m = "Unit of measure is not supported for this setting" ∨
  m = "Unit of measure is not convertible to required unit" ∨
  (∃ s, m = "Value must be >= " ++ s) ∨
  (∃ s, m = "Value must be <= " ++ s)

/-- A range-check error names the definition's identifier and carries a
bound message. -/
theorem mem_rangeErrors (k : String) (mn mx : Option ℚ) (x : ℚ)
    (e : SettingError) (he : e ∈ rangeErrors k mn mx x) :
    e.identifier = k ∧ checkMsgOk e.message := by
  unfold rangeErrors at he
  rcases List.mem_append.mp he with h | h
  · split at h
    · split at h
      · simp only [List.mem_singleton] at h
        subst h
        refine ⟨rfl, ?_⟩
        right; right; right; right; right; right; right; left
        exact ⟨_, rfl⟩
      · cases h
    · cases h
  · split at h
    · split at h
      · simp only [List.mem_singleton] at h
        subst h
        refine ⟨rfl, ?_⟩
        right; right; right; right; right; right; right; right
        exact ⟨_, rfl⟩
      · cases h
    · cases h

/-- Every error of the per-definition checks names the checked identifier
and carries one of the fixed per-definition messages. -/
theorem mem_checkDef (pm : List (String × SettingValue)) (k : String)
    (d : Setting) (e : SettingError) (he : e ∈ checkDef pm k d) :
    e.identifier = k ∧ checkMsgOk e.message := by
  simp only [checkDef] at he
  split at he
  · simp only [List.mem_singleton] at he
    subst he
    exact ⟨rfl, Or.inl rfl⟩
  · split at he
    · split at he
      · simp only [List.mem_singleton] at he
        subst he
        exact ⟨rfl, Or.inr (Or.inl rfl)⟩
      · cases he
    · rcases List.mem_append.mp he with h | h
      · split at h
        · simp only [List.mem_singleton] at h
          subst h
          exact ⟨rfl, Or.inr (Or.inl rfl)⟩
        · cases h
      · split at h
        · split at h
          · cases h
          · simp only [List.mem_singleton] at h
            subst h
            exact ⟨rfl, Or.inr (Or.inr (Or.inl rfl))⟩
        · split at h
          · cases h
          · simp only [List.mem_singleton] at h
            subst h
            exact ⟨rfl, Or.inr (Or.inr (Or.inr (Or.inl rfl)))⟩
        · split at h
          · split at h
            · simp only [List.mem_singleton] at h
              subst h
              exact ⟨rfl,
                Or.inr (Or.inr (Or.inr (Or.inr (Or.inr (Or.inl rfl)))))⟩
            · split at h
              · simp only [List.mem_singleton] at h
                subst h
                exact ⟨rfl,
                  Or.inr (Or.inr (Or.inr (Or.inr (Or.inr
                    (Or.inr (Or.inl rfl))))))⟩
              · exact mem_rangeErrors _ _ _ _ _ h
          · simp only [List.mem_singleton] at h
            subst h
            exact ⟨rfl, Or.inr (Or.inr (Or.inr (Or.inr (Or.inl rfl))))⟩

/-- With identifier-wise distinct definitions, two members sharing an
identifier are the same definition. -/
theorem eq_of_mem_of_nodup_map (l : List Setting)
    (hnd : (l.map Setting.identifier).Nodup) (d d2 : Setting)
    (hd : d ∈ l) (hd2 : d2 ∈ l) (h : d2.identifier = d.identifier) :
    d2 = d := by
  induction l with
  | nil => cases hd
  | cons a rest ih =>
    simp only [List.map_cons, List.nodup_cons] at hnd
    rcases List.mem_cons.mp hd with h1 | h1 <;>
      rcases List.mem_cons.mp hd2 with h2 | h2
    · rw [h2, h1]
    · exfalso
      apply hnd.1
      rw [← h1, ← h]
      exact List.mem_map.mpr ⟨d2, h2, rfl⟩
    · exfalso
      apply hnd.1
      rw [← h2, h]
      exact List.mem_map.mpr ⟨d, h1, rfl⟩
    · exact ih hnd.2 h1 h2

/-- A `flatMap` all of whose pieces vanish except the one at a member of a
duplicate-free list collapses to that piece. -/
theorem flatMap_eq_of_unique {α β : Type} [DecidableEq α] (l : List α)
    (g : α → List β) (d : α) (hl : l.Nodup) (hd : d ∈ l)
    (hz : ∀ x ∈ l, x ≠ d → g x = []) : l.flatMap g = g d := by
  induction l with
  | nil => cases hd
  | cons a rest ih =>
    rw [List.flatMap_cons]
    rw [List.nodup_cons] at hl
    rcases List.mem_cons.mp hd with h1 | h1
    · subst h1
      have hrest : rest.flatMap g = [] := by
        rw [List.eq_nil_iff_forall_not_mem]
        intro b hb
        rcases List.mem_flatMap.mp hb with ⟨x, hx, hbx⟩
        have hx0 : g x = [] := by
          refine hz x (List.mem_cons_of_mem _ hx) ?_
          intro hxa
          rw [hxa] at hx
          exact hl.1 hx
        rw [hx0] at hbx
        cases hbx
      rw [hrest, List.append_nil]
    · have ha : g a = [] := by
        refine hz a (List.mem_cons_self _ _) ?_
        intro had
        rw [had] at hl
        exact hl.1 h1
      rw [ha, List.nil_append]
      exact ih hl.2 h1 (fun x hx => hz x (List.mem_cons_of_mem _ hx))

/-- Interpolated range messages never collide with the duplicate
message. -/
theorem rangeMsg_ne_dup (s : String) :
    ("Value must be >= " ++ s ≠ "Duplicate setting identifier provided") ∧
    ("Value must be <= " ++ s ≠ "Duplicate setting identifier provided") := by
  constructor
  · intro h
    have h2 : ('V' :: (("alue must be >= " : String).data ++ s.data)) =
        'D' :: ("uplicate setting identifier provided" : String).data :=
      congrArg String.data h
    exact absurd (List.cons.inj h2).1 (by decide)
  · intro h
    have h2 : ('V' :: (("alue must be <= " : String).data ++ s.data)) =
        'D' :: ("uplicate setting identifier provided" : String).data :=
      congrArg String.data h
    exact absurd (List.cons.inj h2).1 (by decide)

/-- No per-definition message is the duplicate message. -/
theorem checkMsgOk_ne_dup (m : String) (h : checkMsgOk m) :
    m ≠ "Duplicate setting identifier provided" := by
  rcases h with h | h | h | h | h | h | h | ⟨s, h⟩ | ⟨s, h⟩ <;> subst h
  · decide
  · decide
  · decide
  · decide
  · decide
  · decide
  · decide
  · exact (rangeMsg_ne_dup s).1
  · exact (rangeMsg_ne_dup s).2

/-- An identifier proposed at least twice yields exactly one duplicate
error in the validator's output. -/
theorem count_dup_error (defs : List Setting) (props : List SettingValue)
    (id : String)
    (hdup : 2 ≤ (props.map (fun p => p.identifier)).count id) :
    (verifySettings defs props).count
      ⟨id, "Duplicate setting identifier provided"⟩ = 1 := by
  unfold verifySettings
  rw [List.count_append, List.count_append, count_map_mk]
  have h1 : (scanDups [] [] props).count id = 1 := by
    apply List.count_eq_one_of_mem (scanDups_nodup props [] [] List.nodup_nil)
    rw [mem_scanDups]
    right; right
    exact hdup
  have h2 : (unknownErrors (buildDefMap defs) props).count
      ⟨id, "Duplicate setting identifier provided"⟩ = 0 := by
    rw [List.count_eq_zero]
    intro hmem
    have hmsg := (mem_unknownErrors _ _ _ hmem).1
    simp at hmsg
  have h3 : ((buildDefMap defs).flatMap (fun e =>
      checkDef (buildProvidedMap (buildDefMap defs) [] props) e.1 e.2)).count
      ⟨id, "Duplicate setting identifier provided"⟩ = 0 := by
    rw [List.count_eq_zero]
    intro hmem
    rcases List.mem_flatMap.mp hmem with ⟨ent, _, he⟩
    exact checkMsgOk_ne_dup _ (mem_checkDef _ _ _ _ he).2 rfl
  rw [h1, h2, h3]

/-- A definition with no entry in `providedMap`, not nullable, and without
a default fails with exactly the missing-value error. -/
theorem checkDef_missing (pm : List (String × SettingValue)) (k : String)
    (d : Setting) (hfind : pm.find? (fun x => x.1 == k) = none)
    (hnul : d.nullable ≠ some true) (hdv : d.defaultValue = none) :
    checkDef pm k d =
      [⟨k, "Missing value (no default and not nullable)"⟩] := by
  simp [checkDef, hfind, hdv, hnul]

/-- With an empty `providedMap`, a nullable-or-defaulted definition whose
default (if numeric) is within bounds produces no error. -/
theorem checkDef_empty_pm (d : Setting)
    (hnd : d.nullable = some true ∨ d.defaultValue.isSome = true)
    (hdb : defaultWithinBounds d = true) :
    checkDef [] d.identifier d = [] := by
  cases hk : d.kind with
  | stringK dv =>
    cases dv with
    | none =>
      rcases hnd with h | h
      · simp [checkDef, Setting.defaultValue, Setting.type, hk, h]
      · rw [Setting.defaultValue, hk] at h
        cases h
    | some s => simp [checkDef, Setting.defaultValue, Setting.type, hk]
  | booleanK dv =>
    cases dv with
    | none =>
      rcases hnd with h | h
      · simp [checkDef, Setting.defaultValue, Setting.type, hk, h]
      · rw [Setting.defaultValue, hk] at h
        cases h
    | some b => simp [checkDef, Setting.defaultValue, Setting.type, hk]
  | numberK dv u mn mx =>
    cases dv with
    | none =>
      rcases hnd with h | h
      · simp [checkDef, Setting.defaultValue, Setting.type, hk, h]
      · rw [Setting.defaultValue, hk] at h
        cases h
    | some x =>
      unfold defaultWithinBounds at hdb
      rw [hk] at hdb
      have hre : rangeErrors d.identifier mn mx x = [] :=
        List.isEmpty_iff.mp hdb
      simp [checkDef, Setting.defaultValue, Setting.type, hk, hre]

/-- C8: conversion between equal units is the identity: for every number
`v` and unit `u`, `convertUom v u u` returns `v` unchanged. -/
theorem convertUom_same_unit_id (v : ℚ) (u : UnitOfMeasure) :
    convertUom v u u = some v := by
  simp [convertUom]

/-- C7: `convertUom` is total (a Lean function) and closed-world: for
every ordered pair of distinct units absent from the fixed conversion
table it returns the not-convertible sentinel `none`, in both directions,
and in particular it does so for every pair of units from two different
convertibility classes. -/
theorem convertUom_closed_world (v : ℚ) (u1 u2 : UnitOfMeasure) :
    (u1 ≠ u2 → inConvTable u1 u2 = false →
      convertUom v u1 u2 = none ∧ convertUom v u2 u1 = none) ∧
    (uomClass u1 ≠ uomClass u2 →
      convertUom v u1 u2 = none ∧ convertUom v u2 u1 = none) := by
  refine ⟨fun hne htab => ?_, fun hcl => ?_⟩ <;>
    cases u1 <;> cases u2 <;>
      simp_all [convertUom, inConvTable, uomClass]

/-- Witness for C7 at the concrete cross-class pair (Celsius, RPM). -/
theorem convertUom_closed_world_witness :
    convertUom 5 UnitOfMeasure.DEGREE_CELSIUS UnitOfMeasure.RPM = none ∧
    convertUom 5 UnitOfMeasure.RPM UnitOfMeasure.DEGREE_CELSIUS = none :=
  (convertUom_closed_world 5 UnitOfMeasure.DEGREE_CELSIUS UnitOfMeasure.RPM).1
    (by decide) (by decide)

/-- C9: `applySettings` delegates to `verifySettings` over the machine's
own definitions; on a non-empty error list it returns that list and
persists nothing, and on an empty one it performs its persistence effect
(writing the accepted proposals to the configured file path) and returns
an empty error list. -/
theorem applySettings_delegates (config : InjectionMolderConfig)
    (settings : List SettingValue) :
    (verifySettings injectionMolderSettings settings ≠ [] →
      applySettings config settings =
        (verifySettings injectionMolderSettings settings, none)) ∧
    (verifySettings injectionMolderSettings settings = [] →
      applySettings config settings =
        ([], some (config.filePath, settings))) := by
  unfold applySettings
  constructor
  · intro h
    rw [if_pos]
    exact List.length_pos.mpr h
  · intro h
    rw [h]
    simp

/-- Witness for C9: empty proposals are rejected (a required boolean
setting is missing) with nothing persisted; a batch providing that one
value verifies cleanly and is persisted. -/
theorem applySettings_delegates_witness :
    applySettings ⟨"molder.json"⟩ [] =
      ([⟨"guardsClosedRequired", "Missing value (no default and not nullable)"⟩],
        none) ∧
    applySettings ⟨"molder.json"⟩
        [⟨"guardsClosedRequired", some (.bool true), none⟩] =
      ([], some ("molder.json",
        [⟨"guardsClosedRequired", some (.bool true), none⟩])) := by
  constructor
  · exact ((applySettings_delegates ⟨"molder.json"⟩ []).1 (by decide)).trans
      (by decide)
  · exact (applySettings_delegates ⟨"molder.json"⟩
      [⟨"guardsClosedRequired", some (.bool true), none⟩]).2 (by decide)

/-- C2: for a numeric definition carrying a unit and inclusive bounds and
a proposal in a different unit that `convertUom` can convert, the
validator compares the converted value (not the raw one) against
`minValue`/`maxValue`: the outcome is exactly the range errors of the
converted value. -/
theorem verify_converts_before_range (nsp : Option String) (idf dsc : String)
    (nl : Option Bool) (dv : Option ℚ) (u pu : UnitOfMeasure)
    (mn mx : Option ℚ) (v w : ℚ) (hne : pu ≠ u)
    (hconv : convertUom v pu u = some w) :
    verifySettings [⟨nsp, idf, dsc, nl, .numberK dv (some u) mn mx⟩]
      [⟨idf, some (.num v), some pu⟩] =
    rangeErrors idf mn mx w := by
  simp [verifySettings, buildDefMap, mapSet, scanDups, unknownErrors,
    buildProvidedMap, checkDef, Setting.type, Setting.defaultValue, hne, hconv]

/-- Witness for C2: the spec scenario — definition tempC in Celsius with
bounds 0..100, proposal 212 Fahrenheit — yields no errors (212 degrees
Fahrenheit converts to exactly 100 degrees Celsius, at the boundary). -/
theorem verify_converts_before_range_witness :
    verifySettings
      [⟨none, "tempC", "", none,
        .numberK none (some .DEGREE_CELSIUS) (some 0) (some 100)⟩]
      [⟨"tempC", some (.num 212), some .DEGREE_FAHRENHEIT⟩] = [] :=
  (verify_converts_before_range none "tempC" "" none none
    UnitOfMeasure.DEGREE_CELSIUS UnitOfMeasure.DEGREE_FAHRENHEIT
    (some 0) (some 100) 212 100 (by decide)
    (by simp [convertUom]; norm_num)).trans (by decide)

/-- The definition map has an entry for exactly the declared identifiers. -/
theorem any_buildDefMap (defs : List Setting) (id : String) :
    (buildDefMap defs).any (fun e => e.1 == id) = true ↔
      id ∈ defs.map Setting.identifier := by
  unfold buildDefMap
  rw [any_foldl_mapSet]
  simp

/-- An identifier declared by no definition has no definition-map entry. -/
theorem any_buildDefMap_eq_false (defs : List Setting) (id : String)
    (h : id ∉ defs.map Setting.identifier) :
    (buildDefMap defs).any (fun e => e.1 == id) = false := by
  by_contra hc
  rw [Bool.not_eq_false] at hc
  exact h ((any_buildDefMap defs id).mp hc)

/-- C1 (amended): `verifySettings` is a total function (it terminates and
signals failures only through its returned list), and a call with empty
proposals and definitions that are each nullable or defaulted — with every
numeric default inside its own declared bounds — returns no errors. -/
theorem verify_empty_proposals_ok (defs : List Setting)
    (hnd : ∀ d ∈ defs, d.nullable = some true ∨ d.defaultValue.isSome = true)
    (hdb : ∀ d ∈ defs, defaultWithinBounds d = true) :
    verifySettings defs [] = [] := by
  unfold verifySettings
  simp only [scanDups, List.map_nil, List.nil_append]
  have hu : unknownErrors (buildDefMap defs) [] = [] := rfl
  rw [hu, List.nil_append, List.eq_nil_iff_forall_not_mem]
  intro e he
  rcases List.mem_flatMap.mp he with ⟨ent, hent, hee⟩
  rcases mem_foldl_mapSet defs [] ent hent with h | ⟨hmem, hkey⟩
  · cases h
  · have hck : checkDef (buildProvidedMap (buildDefMap defs) [] []) ent.1 ent.2
        = [] := by
      have hpm : buildProvidedMap (buildDefMap defs) [] [] = [] := rfl
      rw [hpm, hkey]
      exact checkDef_empty_pm ent.2 (hnd ent.2 hmem) (hdb ent.2 hmem)
    rw [hck] at hee
    cases hee

/-- C1 counterexample: one definition with a default value (hence
nullable-or-defaulted) whose default 500 exceeds its own maximum 100; with
empty proposals the validator still reports a range error, so the claimed
empty result fails. -/
theorem verify_empty_proposals_counterexample :
    verifySettings [⟨none, "x", "", none,
      .numberK (some 500) none (some 0) (some 100)⟩] [] ≠ [] := by decide

/-- Witness for C1 (amended) at a two-definition machine (a defaulted
string and a nullable bounded number). -/
theorem verify_empty_proposals_ok_witness :
    verifySettings
      [⟨none, "a", "", none, .stringK (some "x")⟩,
       ⟨none, "b", "", some true,
         .numberK (some 5) (some .SECOND) (some 0) (some 10)⟩] [] = [] :=
  verify_empty_proposals_ok _ (by decide) (by decide)

/-- C3 (amended): a non-numeric definition whose first proposal carries a
unit of measure is flagged with the unit-applicability error, provided the
missing-value check does not fire first for it (the definition is
nullable, or a value is proposed, or a default exists); this covers in
particular the no-effective-value case of a nullable definition. -/
theorem verify_uom_only_numeric (defs : List Setting)
    (props : List SettingValue) (d : Setting) (p : SettingValue)
    (hd : d ∈ defs) (hnd : (defs.map Setting.identifier).Nodup)
    (htype : d.type ≠ SettingType.NUMBER)
    (hfirst : props.find? (fun q => q.identifier == d.identifier) = some p)
    (huom : p.uom.isSome = true)
    (hok : d.nullable = some true ∨ p.value.isSome = true ∨
      d.defaultValue.isSome = true) :
    (⟨d.identifier, "Unit of measure is only allowed for numeric settings"⟩ :
      SettingError) ∈ verifySettings defs props := by
  have hdefany : (buildDefMap defs).any (fun e => e.1 == d.identifier) = true :=
    (any_buildDefMap defs d.identifier).mpr (List.mem_map.mpr ⟨d, hd, rfl⟩)
  have hpm : (buildProvidedMap (buildDefMap defs) [] props).find?
      (fun x => x.1 == d.identifier) = some (d.identifier, p) :=
    find?_buildProvidedMap_first _ props [] _ p hdefany rfl hfirst
  unfold verifySettings
  refine List.mem_append.mpr (Or.inr ?_)
  refine List.mem_flatMap.mpr ⟨(d.identifier, d), ?_, ?_⟩
  · rw [buildDefMap_eq_of_nodup defs hnd]
    exact List.mem_map.mpr ⟨d, hd, rfl⟩
  · rcases hval : p.value with _ | v
    · rcases hdv : d.defaultValue with _ | dv
      · rcases hok with h | h | h
        · simp [checkDef, hpm, hval, hdv, htype, huom, h]
        · rw [hval] at h
          cases h
        · rw [hdv] at h
          cases h
      · simp [checkDef, hpm, hval, hdv, htype, huom]
    · simp [checkDef, hpm, hval, htype, huom]

/-- C3 counterexample: a non-nullable, defaultless string definition with
a proposal that carries a unit but no value gets only the missing-value
error — the unit-applicability error claimed for every such proposal is
not emitted. -/
theorem verify_uom_only_numeric_counterexample :
    (⟨"s", "Unit of measure is only allowed for numeric settings"⟩ :
      SettingError) ∉
      verifySettings [⟨none, "s", "", none, .stringK none⟩]
        [⟨"s", none, some .DEGREE_CELSIUS⟩] := by decide

/-- Witness for C3 (amended): a nullable string definition with a
value-less unit-carrying proposal is flagged. -/
theorem verify_uom_only_numeric_witness :
    (⟨"s", "Unit of measure is only allowed for numeric settings"⟩ :
      SettingError) ∈
      verifySettings [⟨none, "s", "", some true, .stringK none⟩]
        [⟨"s", none, some .DEGREE_CELSIUS⟩] :=
  verify_uom_only_numeric _ _ ⟨none, "s", "", some true, .stringK none⟩
    ⟨"s", none, some .DEGREE_CELSIUS⟩ (by decide) (by decide) (by decide)
    (by decide) (by decide) (Or.inl rfl)

/-- C4: an identifier proposed two or more times — whatever the values —
produces exactly one duplicate-identifier error in the result. -/
theorem verify_duplicate_one_error (defs : List Setting)
    (props : List SettingValue) (id : String)
    (hdup : 2 ≤ (props.map (fun p => p.identifier)).count id) :
    (verifySettings defs props).count
      ⟨id, "Duplicate setting identifier provided"⟩ = 1 :=
  count_dup_error defs props id hdup

/-- Witness for C4 with a twice-proposed identifier. -/
theorem verify_duplicate_one_error_witness :
    (verifySettings [] [⟨"a", some (.str "u"), none⟩, ⟨"a", none, none⟩]).count
      ⟨"a", "Duplicate setting identifier provided"⟩ = 1 :=
  verify_duplicate_one_error [] _ "a" (by decide)

/-- C5: a non-nullable definition without default whose identifier is not
proposed receives exactly the missing-value error and nothing else. -/
theorem verify_missing_value_exact (defs : List Setting)
    (props : List SettingValue) (d : Setting) (hd : d ∈ defs)
    (hnd : (defs.map Setting.identifier).Nodup)
    (hnul : d.nullable ≠ some true) (hdv : d.defaultValue = none)
    (habs : d.identifier ∉ props.map (fun p => p.identifier)) :
    (verifySettings defs props).filter
      (fun e => e.identifier == d.identifier) =
      [⟨d.identifier, "Missing value (no default and not nullable)"⟩] := by
  unfold verifySettings
  rw [List.filter_append, List.filter_append]
  have h1 : ((scanDups [] [] props).map (fun i =>
      (⟨i, "Duplicate setting identifier provided"⟩ : SettingError))).filter
      (fun e => e.identifier == d.identifier) = [] := by
    rw [List.filter_eq_nil_iff]
    intro e he hbeq
    rcases List.mem_map.mp he with ⟨i, hi, hie⟩
    rw [mem_scanDups] at hi
    rcases hi with h | h | h
    · cases h
    · rcases h with ⟨h, _⟩
      cases h
    · have hmem : i ∈ props.map (fun p => p.identifier) :=
        List.count_pos_iff.mp (by omega)
      rw [← hie] at hbeq
      have h4 : i = d.identifier := beq_iff_eq.mp hbeq
      rw [h4] at hmem
      exact habs hmem
  have h2 : (unknownErrors (buildDefMap defs) props).filter
      (fun e => e.identifier == d.identifier) = [] := by
    rw [List.filter_eq_nil_iff]
    intro e he hbeq
    have hm := (mem_unknownErrors _ _ _ he).2
    rw [beq_iff_eq.mp hbeq] at hm
    exact habs hm
  have h3 : ((buildDefMap defs).flatMap (fun e =>
      checkDef (buildProvidedMap (buildDefMap defs) [] props) e.1 e.2)).filter
      (fun e => e.identifier == d.identifier) =
      [⟨d.identifier, "Missing value (no default and not nullable)"⟩] := by
    rw [List.filter_flatMap, buildDefMap_eq_of_nodup defs hnd,
      List.flatMap_map]
    rw [flatMap_eq_of_unique _ _ d (List.Nodup.of_map _ hnd) hd ?hz]
    case hz =>
      intro x hx hxd
      rw [List.filter_eq_nil_iff]
      intro e he hbeq
      have hid := (mem_checkDef _ _ _ _ he).1
      rw [hid] at hbeq
      exact hxd (eq_of_mem_of_nodup_map defs hnd d x hd hx (beq_iff_eq.mp hbeq))
    rw [checkDef_missing _ _ _
      (find?_buildProvidedMap_none _ _ _ habs) hnul hdv]
    simp
  rw [h1, h2, h3]
  rfl

/-- Witness for C5: a lone required boolean definition with no proposals. -/
theorem verify_missing_value_exact_witness :
    (verifySettings [⟨none, "m", "", none, .booleanK none⟩] []).filter
      (fun e => e.identifier == "m") =
      [⟨"m", "Missing value (no default and not nullable)"⟩] :=
  verify_missing_value_exact [⟨none, "m", "", none, .booleanK none⟩] []
    ⟨none, "m", "", none, .booleanK none⟩ (by decide) (by decide) (by decide)
    (by decide) (by decide)

/-- C6: a proposal naming no definition yields the unknown-identifier
error, and every error attributed to that identifier is the
unknown-identifier error (or the duplicate error when the identifier also
repeats) — never a type, unit, range, or missing-value error. -/
theorem verify_unknown_short_circuits (defs : List Setting)
    (props : List SettingValue) (p : SettingValue) (hp : p ∈ props)
    (hu : p.identifier ∉ defs.map Setting.identifier) :
    (⟨p.identifier, "Unknown setting identifier"⟩ : SettingError) ∈
        verifySettings defs props ∧
      ∀ e ∈ verifySettings defs props, e.identifier = p.identifier →
        e.message = "Unknown setting identifier" ∨
          e.message = "Duplicate setting identifier provided" := by
  have hany : (buildDefMap defs).any (fun e => e.1 == p.identifier) = false :=
    any_buildDefMap_eq_false defs p.identifier hu
  constructor
  · unfold verifySettings
    exact List.mem_append.mpr (Or.inl (List.mem_append.mpr
      (Or.inr (unknown_mem_unknownErrors _ _ p hp hany))))
  · intro e he heid
    unfold verifySettings at he
    rcases List.mem_append.mp he with h | h
    · rcases List.mem_append.mp h with h1 | h1
      · right
        rcases List.mem_map.mp h1 with ⟨i, _, hie⟩
        rw [← hie]
      · left
        exact (mem_unknownErrors _ _ _ h1).1
    · exfalso
      rcases List.mem_flatMap.mp h with ⟨ent, hent, hee⟩
      rcases mem_foldl_mapSet defs [] ent hent with h2 | ⟨hmem, hkey⟩
      · cases h2
      · apply hu
        rw [← heid, (mem_checkDef _ _ _ _ hee).1, hkey]
        exact List.mem_map.mpr ⟨ent.2, hmem, rfl⟩

/-- Witness for C6 at a machine with no definitions. -/
theorem verify_unknown_short_circuits_witness :
    (⟨"z", "Unknown setting identifier"⟩ : SettingError) ∈
      verifySettings [] [⟨"z", none, none⟩] :=
  (verify_unknown_short_circuits [] [⟨"z", none, none⟩] ⟨"z", none, none⟩
    (by decide) (by decide)).1

/-- C10: an unknown identifier proposed twice produces one
unknown-identifier error per occurrence (two in total) next to the single
duplicate error. -/
theorem verify_unknown_each_occurrence (defs : List Setting)
    (props : List SettingValue) (id : String)
    (hu : id ∉ defs.map Setting.identifier)
    (hc : (props.map (fun p => p.identifier)).count id = 2) :
    (verifySettings defs props).count ⟨id, "Unknown setting identifier"⟩ = 2 ∧
      (verifySettings defs props).count
        ⟨id, "Duplicate setting identifier provided"⟩ = 1 := by
  constructor
  · unfold verifySettings
    rw [List.count_append, List.count_append]
    have h1 : ((scanDups [] [] props).map (fun i =>
        (⟨i, "Duplicate setting identifier provided"⟩ : SettingError))).count
        ⟨id, "Unknown setting identifier"⟩ = 0 := by
      rw [List.count_eq_zero]
      intro hmem
      rcases List.mem_map.mp hmem with ⟨i, _, hie⟩
      have hmsg := congrArg SettingError.message hie
      simp at hmsg
    have h2 : (unknownErrors (buildDefMap defs) props).count
        ⟨id, "Unknown setting identifier"⟩ = 2 := by
      rw [count_unknownErrors _ _ _ (any_buildDefMap_eq_false defs id hu), hc]
    have h3 : ((buildDefMap defs).flatMap (fun e =>
        checkDef (buildProvidedMap (buildDefMap defs) [] props) e.1 e.2)).count
        ⟨id, "Unknown setting identifier"⟩ = 0 := by
      rw [List.count_eq_zero]
      intro hmem
      rcases List.mem_flatMap.mp hmem with ⟨ent, hent, hee⟩
      rcases mem_foldl_mapSet defs [] ent hent with h | ⟨hmem2, hkey⟩
      · cases h
      · apply hu
        have hid := (mem_checkDef _ _ _ _ hee).1
        rw [show (⟨id, "Unknown setting identifier"⟩ :
          SettingError).identifier = id from rfl] at hid
        rw [hid, hkey]
        exact List.mem_map.mpr ⟨ent.2, hmem2, rfl⟩
    rw [h1, h2, h3]
  · exact count_dup_error defs props id (by omega)

/-- Witness for C10: the identifier u, unknown to an empty machine,
proposed twice. -/
theorem verify_unknown_each_occurrence_witness :
    (verifySettings [] [⟨"u", some (.num 1), none⟩, ⟨"u", some (.num 2), none⟩]).count
        ⟨"u", "Unknown setting identifier"⟩ = 2 ∧
      (verifySettings [] [⟨"u", some (.num 1), none⟩,
        ⟨"u", some (.num 2), none⟩]).count
        ⟨"u", "Duplicate setting identifier provided"⟩ = 1 :=
  verify_unknown_each_occurrence [] _ "u" (by decide) (by decide)


end ConfigEngine
